import Mathlib

/-!
Verification of the core algorithms of the d-scribe voice recorder.

The Rust sources are shallowly embedded as executable Lean definitions:

* `AudioBuffer` models `src-tauri/src/audio/buffer.rs` (ring buffer for
  real-time audio extraction); machine `u64` arithmetic is modelled on `Nat`
  with explicit wrap-around (`% 2 ^ 64`) where the source can overflow.
* `sendFrame` / `recvFrame` model the named-pipe framing of
  `src-tauri/src/discord_rpc/ipc.rs` at the byte level.
* `ActiveSession` with `record_speaking_event`, `flush_pending`,
  `flush_pending_if_elapsed` and `stop_session` models the speaker segmenter
  of `src-tauri/src/session/recorder.rs`; the `HashMap`s are modelled as
  association lists with unique keys, the session clock
  (`elapsed_ms_since(start_time)`) is passed explicitly as `now`.
* `transcribe_session_texts` and `liveWorker` model the per-segment dispatch
  loops of `src-tauri/src/lib.rs` (`transcribe_session_command` and the live
  worker inside `start_recording`), with the actual subprocess / HTTP calls
  abstracted as oracle functions.
-/

namespace DScribe

/-! ## Ring buffer (`audio/buffer.rs`) -/

/-- At 16 kHz: 1 ms = 16 samples (`SAMPLES_PER_MS`). -/
def SAMPLES_PER_MS : Nat := 16

/-- Max buffer duration: 5 minutes at 16 kHz (`MAX_SAMPLES`). -/
def MAX_SAMPLES : Nat := 16 * 60 * 5 * 1000

/-- Modulus of Rust `u64` arithmetic. -/
def U64 : Nat := 2 ^ 64

/-- Wrapping `u64` subtraction `a - b` (release-mode Rust semantics). -/
def wrapSub (a b : Nat) : Nat := (a + U64 - b % U64) % U64

/-- `AudioBuffer`: the `VecDeque<i16>` is a list front-to-back, `base_sample`
the absolute sample index of the first retained element. -/
structure AudioBuffer where
  samples : List Int
  base_sample : Nat
deriving DecidableEq

/-- `AudioBuffer::new()`. -/
def AudioBuffer.new : AudioBuffer := ⟨[], 0⟩

/-- `AudioBuffer::push`: append a sample; at capacity drop the oldest sample
and increment `base_sample`. -/
def AudioBuffer.push (b : AudioBuffer) (sample : Int) : AudioBuffer :=
  if MAX_SAMPLES ≤ b.samples.length then
    ⟨b.samples.tail ++ [sample], b.base_sample + 1⟩
  else
    ⟨b.samples ++ [sample], b.base_sample⟩

/-- `AudioBuffer::extract(start_ms, end_ms)`. The two `u64` multiplications
and the `end_sample - base_sample` subtraction wrap as in the source;
`saturating_sub` is `Nat` subtraction; `as usize` is the identity on the
64-bit target. `samples.range(rel_start..end)` is `drop`/`take`. -/
def AudioBuffer.extract (b : AudioBuffer) (start_ms end_ms : Nat) : List Int :=
  let start_sample := start_ms * SAMPLES_PER_MS % U64
  let end_sample := end_ms * SAMPLES_PER_MS % U64
  if start_sample < b.base_sample then []
  else
    let rel_start := start_sample - b.base_sample
    let rel_end := wrapSub end_sample b.base_sample
    let count := rel_end - rel_start
    if b.samples.length ≤ rel_start ∨ count = 0 then []
    else
      let e := min (rel_start + count) b.samples.length
      (b.samples.drop rel_start).take (e - rel_start)

/-- `AudioBuffer::len`. -/
def AudioBuffer.len (b : AudioBuffer) : Nat := b.samples.length

/-! ## Named-pipe framing (`discord_rpc/ipc.rs`) -/

/-- `u32::to_le_bytes` on the low 32 bits of `n`. -/
def toLE4 (n : Nat) : List Nat :=
  [n % 256, n / 256 % 256, n / 256 / 256 % 256, n / 256 / 256 / 256 % 256]

/-- `u32::from_le_bytes` on a 4-byte list (any other shape gives 0). -/
def fromLE4 : List Nat → Nat
  | [b0, b1, b2, b3] => b0 + 256 * (b1 + 256 * (b2 + 256 * b3))
  | _ => 0

/-- `send_frame`: 8-byte header (opcode u32 LE, length-as-u32 LE), then the
payload bytes. -/
def sendFrame (opcode : Nat) (payload : List Nat) : List Nat :=
  toLE4 opcode ++ toLE4 payload.length ++ payload

/-- `IpcConnection::recv_frame` on a byte stream: read an 8-byte header, then
`length` payload bytes; returns the decoded pair and the unread remainder of
the stream. `none` models the short-read / EOF outcomes. -/
def recvFrame (stream : List Nat) : Option ((Nat × List Nat) × List Nat) :=
  match stream with
  | b0 :: b1 :: b2 :: b3 :: b4 :: b5 :: b6 :: b7 :: rest =>
    let opcode := fromLE4 [b0, b1, b2, b3]
    let len := fromLE4 [b4, b5, b6, b7]
    if len = 0 then some ((opcode, []), rest)
    else if rest.length < len then none
    else some ((opcode, rest.take len), rest.drop len)
  | _ => none

/-! ## Association-list model of `HashMap<String, _>` -/

/-- `HashMap::get` on an association list. -/
def lookupA {α : Type} : List (String × α) → String → Option α
  | [], _ => none
  | p :: rest, k => if p.1 = k then some p.2 else lookupA rest k

/-- `HashMap::remove`: drop the entry with the given key. -/
def eraseA {α : Type} (m : List (String × α)) (k : String) : List (String × α) :=
  m.filter (fun p => decide (p.1 ≠ k))

/-- `HashMap::insert`: replace the entry for `k`. -/
def insertA {α : Type} (m : List (String × α)) (k : String) (v : α) :
    List (String × α) :=
  eraseA m k ++ [(k, v)]

/-! ## Speaker segmenter (`session/recorder.rs`) -/

/-- `PendingSegment`: a stopped utterance held in the merge-buffer cooldown. -/
structure PendingSegment where
  start_ms : Nat
  stop_ms : Nat
  user_id : String
deriving DecidableEq

/-- `SessionSegment`: a finalized per-speaker segment. -/
structure SessionSegment where
  start_ms : Nat
  end_ms : Nat
  user_id : String
  speaker_name : Option String
deriving DecidableEq

/-- `ActiveSession`, restricted to the fields the segmenter transitions read
or write. The `HashMap`s are association lists (iteration order is the list
order; the source's hash order is arbitrary). The session clock
(`elapsed_ms_since(session.start_time)`) is passed to each operation as
`now`. -/
structure ActiveSession where
  segments : List SessionSegment
  user_labels : List (String × String)
  open_segments : List (String × Nat)
  pending_cooldown : List (String × PendingSegment)
  segment_merge_buffer_ms : Nat
deriving DecidableEq

/-- `start_session` (persistence metadata omitted): empty maps and the
clamped merge buffer `segment_merge_buffer_ms.max(1)`. -/
def start_session (user_labels : List (String × String))
    (segment_merge_buffer_ms : Nat) : ActiveSession :=
  { segments := []
    user_labels := user_labels
    open_segments := []
    pending_cooldown := []
    segment_merge_buffer_ms := max segment_merge_buffer_ms 1 }

/-- `flush_pending`: move the user's pending segment (if any) to the
finalized list, with `speaker_name` looked up in `user_labels`. (The send on
`SEGMENT_FLUSH_TX` publishes a copy and does not change the session.) -/
def flush_pending (s : ActiveSession) (user_id : String) : ActiveSession :=
  match lookupA s.pending_cooldown user_id with
  | none => s
  | some pending =>
    { s with
      pending_cooldown := eraseA s.pending_cooldown user_id
      segments := s.segments ++
        [⟨pending.start_ms, pending.stop_ms, pending.user_id,
          lookupA s.user_labels user_id⟩] }

/-- `flush_pending_if_elapsed`: finalize every pending entry whose silence
reached the merge buffer (`elapsed.saturating_sub(p.stop_ms) >= buffer`). -/
def flush_pending_if_elapsed (s : ActiveSession) (now : Nat) : ActiveSession :=
  let to_flush := (s.pending_cooldown.filter
    (fun p => decide (s.segment_merge_buffer_ms ≤ now - p.2.stop_ms))).map Prod.fst
  to_flush.foldl flush_pending s

/-- The "flush pending for OTHER users" loop at the top of
`record_speaking_event`'s START branch. -/
def flushOthers (s : ActiveSession) (user_id : String) : ActiveSession :=
  ((s.pending_cooldown.map Prod.fst).filter
    (fun id => decide (id ≠ user_id))).foldl flush_pending s

/-- `record_speaking_event`: the merge-buffer state machine. On START: flush
all *other* users' pending entries, then either merge with / finalize the
user's own pending entry, or open a fresh segment, ignoring duplicate
STARTs. On STOP: move the open segment to pending, or extend an existing
pending entry's `stop_ms`. -/
def record_speaking_event (s : ActiveSession) (is_start : Bool) (user_id : String)
    (now : Nat) : ActiveSession :=
  let buffer := s.segment_merge_buffer_ms
  if is_start then
    let s := flushOthers s user_id
    match lookupA s.pending_cooldown user_id with
    | some pending =>
      let s := { s with pending_cooldown := eraseA s.pending_cooldown user_id }
      if now - pending.stop_ms ≤ buffer then
        { s with open_segments := insertA s.open_segments user_id pending.start_ms }
      else
        { s with
          segments := s.segments ++
            [⟨pending.start_ms, pending.stop_ms, pending.user_id,
              lookupA s.user_labels user_id⟩]
          open_segments := insertA s.open_segments user_id now }
    | none =>
      if (lookupA s.open_segments user_id).isSome then s
      else { s with open_segments := insertA s.open_segments user_id now }
  else
    match lookupA s.open_segments user_id with
    | some start_ms =>
      { s with
        open_segments := eraseA s.open_segments user_id
        pending_cooldown := insertA s.pending_cooldown user_id ⟨start_ms, now, user_id⟩ }
    | none =>
      match lookupA s.pending_cooldown user_id with
      | some pending =>
        { s with pending_cooldown :=
            insertA s.pending_cooldown user_id { pending with stop_ms := now } }
      | none => s

/-- `stop_session`: flush all pending entries, then close every open entry
with `end_ms = now` and finalize. The `segments` field of the result is the
list packaged into the returned `SessionState`; the maps of the dropped
session are empty. (The source recomputes `elapsed_ms_since` per drained
open entry within the same call; the session clock during one `stop_session`
call is the single value `now` here.) -/
def stop_session (s : ActiveSession) (now : Nat) : ActiveSession :=
  let s1 := (s.pending_cooldown.map Prod.fst).foldl flush_pending s
  { s1 with
    open_segments := []
    segments := s1.segments ++
      s1.open_segments.map (fun p => ⟨p.2, now, p.1, lookupA s1.user_labels p.1⟩) }

/-- One externally triggered segmenter transition, tagged with the session
clock value at which it runs. -/
inductive Step where
  | event (is_start : Bool) (user_id : String) (now : Nat)
  | tick (now : Nat)
deriving DecidableEq

/-- The clock value at which a step runs. -/
def Step.time : Step → Nat
  | .event _ _ t => t
  | .tick t => t

/-- Apply one step. -/
def runStep (s : ActiveSession) : Step → ActiveSession
  | .event b u t => record_speaking_event s b u t
  | .tick t => flush_pending_if_elapsed s t

/-- Apply a whole trace of steps. -/
def runTrace (s : ActiveSession) (tr : List Step) : ActiveSession :=
  tr.foldl runStep s

/-- The step times are non-decreasing starting from clock value `c` (the
session clock is monotone). -/
def timesMono (c : Nat) : List Step → Bool
  | [] => true
  | st :: rest => decide (c ≤ st.time) && timesMono st.time rest

/-- The clock value after a trace. -/
def lastTime (c : Nat) : List Step → Nat
  | [] => c
  | st :: rest => lastTime st.time rest

/-- The finalized segments of one user, in list order. -/
def segsOf (u : String) (l : List SessionSegment) : List SessionSegment :=
  l.filter (fun g => decide (g.user_id = u))

/-- Per-user ordering between finalized segments: the earlier segment ends
no later than the later one starts. -/
def SegBefore (a b : SessionSegment) : Prop := a.end_ms ≤ b.start_ms

/-- The segmenter data invariant at session-clock value `c`: every recorded
time is at most the clock, pending entries are well-formed, a user is never
both open and pending, the maps have unique keys, and each user's finalized
segments form a `SegBefore` chain dominated by that user's open or pending
start time. -/
structure Inv (s : ActiveSession) (c : Nat) : Prop where
  seg_le : ∀ g ∈ s.segments, g.start_ms ≤ g.end_ms
  seg_clock : ∀ g ∈ s.segments, g.end_ms ≤ c
  open_clock : ∀ p ∈ s.open_segments, p.2 ≤ c
  pend_le : ∀ p ∈ s.pending_cooldown, p.2.start_ms ≤ p.2.stop_ms
  pend_clock : ∀ p ∈ s.pending_cooldown, p.2.stop_ms ≤ c
  pend_key : ∀ p ∈ s.pending_cooldown, p.2.user_id = p.1
  open_nd : (s.open_segments.map Prod.fst).Nodup
  pend_nd : (s.pending_cooldown.map Prod.fst).Nodup
  excl : ∀ u, (lookupA s.open_segments u).isSome →
    (lookupA s.pending_cooldown u).isSome → False
  chain : ∀ u, (segsOf u s.segments).Chain' SegBefore
  open_after : ∀ p ∈ s.open_segments, ∀ g ∈ segsOf p.1 s.segments, g.end_ms ≤ p.2
  pend_after : ∀ p ∈ s.pending_cooldown, ∀ g ∈ segsOf p.1 s.segments,
    g.end_ms ≤ p.2.start_ms

/-! ## Transcription dispatch (`lib.rs`) -/

/-- Outcome of launching the whisper subprocess for one segment. -/
inductive SubprocOutcome where
  | success (rawTxt : String)
  | exitFailure (stderr : String)
  | spawnFailure (msg : String)
deriving DecidableEq

/-- The backend `transcribe_session_command` dispatches to, with the actual
I/O abstracted as an oracle per segment index: `remote` models
`transcribe_via_api` (`Except.error` covers non-2xx responses and network
errors), `direct` models running the `whisper-cli` executable found next to
the current executable. -/
inductive BackendMode where
  | remote (api : Nat → Except String String)
  | direct (run : Nat → SubprocOutcome)

/-- Rust `str::contains` for string patterns. -/
def strContains (s pat : String) : Bool := decide (1 < (s.splitOn pat).length)

/-- Strip a leading `[.. --> ..]` timestamp tag: Rust
`t.find(']').map(|i| t[i+1..].trim().to_string()).filter(|s| !s.is_empty())`. -/
def stripTimestampTag (t : String) : Option String :=
  match t.splitOn "]" with
  | [] => none
  | [_] => none
  | _ :: rest =>
    let s := (String.intercalate "]" rest).trim
    if s.isEmpty then none else some s

/-- Whisper `.txt` output parsing: split into lines, drop empty lines, strip
timestamp-prefixed lines, join by single spaces, trim. -/
def parseWhisperText (raw : String) : String :=
  (String.intercalate " "
    ((raw.splitOn "\n").filterMap (fun line =>
      let t := line.trim
      if t.isEmpty then none
      else if t.startsWith "[" && strContains t "-->" then stripTimestampTag t
      else some t))).trim

/-- The guidance appended to spawn-type error messages in the non-sidecar
batch paths. -/
def whisperAdvice : String :=
  ". Download whisper from https://github.com/ggml-org/whisper.cpp/releases, extract whisper-cli.exe, rename to whisper-cli-x86_64-pc-windows-msvc.exe, place in src-tauri/binaries/ (see README there)."

/-- Error-to-sentinel message mapping of the non-sidecar batch paths. -/
def sentinelMsg (e : String) : String :=
  if strContains e "program not found" || strContains e "Failed to run whisper" then
    e ++ whisperAdvice
  else e

/-- Run the backend for segment index `i`. The outer `Except.error` models
the `?` early-returns of `transcribe_session_command` (a failure to *spawn*
the subprocess aborts the whole command); the inner `Except` is the
per-segment `result` variable (non-zero exit, or a remote error). -/
def runBackend (mode : BackendMode) (i : Nat) : Except String (Except String String) :=
  match mode with
  | .remote api => .ok (api i)
  | .direct run =>
    match run i with
    | .spawnFailure m => .error ("Failed to run whisper: " ++ m)
    | .exitFailure st => .ok (.error ("Whisper failed: " ++ st))
    | .success raw => .ok (.ok (parseWhisperText raw))

/-- The `match &result` at the bottom of the per-segment loop: a success
stores the parsed text, a failure stores the `[Transcription error: ...]`
sentinel. -/
def resultText (result : Except String String) : String :=
  match result with
  | .ok t => t
  | .error e => "[Transcription error: " ++ sentinelMsg e ++ "]"

/-- The per-segment loop of `transcribe_session_command`, processing `segs`
starting at index `i`. `ext i` models `extract_segment` (whose errors abort
via `?`), `texts` is the `texts` vector, `calls` collects the indices for
which a backend was invoked. Segments with `end_ms ≤ start_ms` are recorded
as `""` without touching any backend; backend `result` errors are recorded
as the `[Transcription error: ...]` sentinel and the loop continues. -/
def transcribeGo (mode : BackendMode) (ext : Nat → Except String Unit) :
    List SessionSegment → Nat → List String → List Nat →
    Except String (List String × List Nat)
  | [], _, texts, calls => .ok (texts, calls)
  | seg :: rest, i, texts, calls =>
    if seg.end_ms ≤ seg.start_ms then
      transcribeGo mode ext rest (i + 1) (texts.set i "") calls
    else
      match ext i with
      | .error e => .error e
      | .ok _ =>
        match runBackend mode i with
        | .error e => .error e
        | .ok result =>
          transcribeGo mode ext rest (i + 1) (texts.set i (resultText result))
            (calls ++ [i])

/-- `transcribe_session_command`'s text production: pad `transcript_texts`
to the segment count with empty strings, then run the per-segment loop. -/
def transcribe_session_texts (mode : BackendMode) (ext : Nat → Except String Unit)
    (segs : List SessionSegment) (texts0 : List String) :
    Except String (List String × List Nat) :=
  transcribeGo mode ext segs 0
    (texts0 ++ List.replicate (segs.length - texts0.length) "") []

/-- One step of the live worker inside `start_recording`: skip invalid
segments (`end_ms ≤ start_ms`), skip segments whose ring-buffer extraction
is empty or whose slice WAV cannot be written (`wavOk` also covers the
missing-temp-dir skip), otherwise push the backend's text onto
`LIVE_TRANSCRIPT_TEXTS` (the live path stores `""` on backend failure) and
run the backend block. The accumulator is (texts, segments for which the
backend block ran). -/
def liveStep (extractSamples : SessionSegment → List Int)
    (backendText : SessionSegment → String) (wavOk : SessionSegment → Bool)
    (acc : List String × List SessionSegment) (seg : SessionSegment) :
    List String × List SessionSegment :=
  if seg.end_ms ≤ seg.start_ms then acc
  else if extractSamples seg = [] then acc
  else if wavOk seg = false then acc
  else (acc.1 ++ [backendText seg], acc.2 ++ [seg])

/-- The live worker: consume the published segments in order. -/
def liveWorker (extractSamples : SessionSegment → List Int)
    (backendText : SessionSegment → String) (wavOk : SessionSegment → Bool)
    (segs : List SessionSegment) : List String × List SessionSegment :=
  segs.foldl (liveStep extractSamples backendText wavOk) ([], [])

/-! ## Helper lemmas -/

theorem fromLE4_toLE4 (n : Nat) (hn : n < 2 ^ 32) : fromLE4 (toLE4 n) = n := by
  simp only [toLE4, fromLE4]
  omega

/-! ### Association-list lemmas -/

theorem lookupA_eq_none_iff {α : Type} (m : List (String × α)) (k : String) :
    lookupA m k = none ↔ ∀ p ∈ m, p.1 ≠ k := by
  induction m with
  | nil => simp [lookupA]
  | cons p rest ih =>
    by_cases h : p.1 = k <;> simp [lookupA, h, ih]

theorem lookupA_mem {α : Type} {m : List (String × α)} {k : String} {v : α}
    (h : lookupA m k = some v) : (k, v) ∈ m := by
  induction m with
  | nil => simp [lookupA] at h
  | cons p rest ih =>
    cases p with
    | mk k1 v1 =>
      by_cases hp : k1 = k
      · subst hp
        simp [lookupA] at h
        subst h
        exact List.mem_cons_self _ _
      · simp only [lookupA, hp, if_false, if_neg hp] at h
        exact List.mem_cons_of_mem _ (ih h)

theorem lookupA_isSome_of_mem {α : Type} {m : List (String × α)} {p : String × α}
    (h : p ∈ m) : (lookupA m p.1).isSome := by
  induction m with
  | nil => simp at h
  | cons q rest ih =>
    rw [List.mem_cons] at h
    by_cases hq : q.1 = p.1
    · simp [lookupA, hq]
    · rcases h with rfl | h
      · exact absurd rfl hq
      · simp [lookupA, hq, ih h]

theorem lookupA_eraseA_self {α : Type} (m : List (String × α)) (k : String) :
    lookupA (eraseA m k) k = none := by
  rw [lookupA_eq_none_iff]
  intro p hp
  simp only [eraseA, List.mem_filter, decide_eq_true_eq] at hp
  exact hp.2

theorem lookupA_eraseA_ne {α : Type} (m : List (String × α)) (k k' : String)
    (h : k' ≠ k) : lookupA (eraseA m k) k' = lookupA m k' := by
  induction m with
  | nil => rfl
  | cons p rest ih =>
    by_cases hp : p.1 = k
    · have h1 : eraseA (p :: rest) k = eraseA rest k := by
        simp [eraseA, List.filter_cons, hp]
      have h2 : lookupA (p :: rest) k' = lookupA rest k' := by
        have hne : p.1 ≠ k' := fun hc => h (hc ▸ hp)
        simp [lookupA, hne]
      rw [h1, h2, ih]
    · have h1 : eraseA (p :: rest) k = p :: eraseA rest k := by
        simp [eraseA, List.filter_cons, hp]
      rw [h1]
      by_cases hp' : p.1 = k'
      · simp [lookupA, hp']
      · simp [lookupA, hp', ih]

theorem lookupA_append {α : Type} (m1 m2 : List (String × α)) (k : String) :
    lookupA (m1 ++ m2) k =
      match lookupA m1 k with
      | some v => some v
      | none => lookupA m2 k := by
  induction m1 with
  | nil => simp [lookupA]
  | cons p rest ih =>
    by_cases hp : p.1 = k <;> simp [lookupA, hp, ih]

theorem lookupA_insertA_self {α : Type} (m : List (String × α)) (k : String) (v : α) :
    lookupA (insertA m k v) k = some v := by
  rw [insertA, lookupA_append, lookupA_eraseA_self]
  simp [lookupA]

theorem lookupA_insertA_ne {α : Type} (m : List (String × α)) (k : String) (v : α)
    (k' : String) (h : k' ≠ k) : lookupA (insertA m k v) k' = lookupA m k' := by
  rw [insertA, lookupA_append, lookupA_eraseA_ne m k k' h]
  cases hl : lookupA m k' with
  | none => simp [lookupA, Ne.symm h]
  | some w => simp

theorem keys_eraseA_sublist {α : Type} (m : List (String × α)) (k : String) :
    ((eraseA m k).map Prod.fst).Sublist (m.map Prod.fst) :=
  ((List.filter_sublist m).map Prod.fst)

theorem keys_eraseA_nodup {α : Type} {m : List (String × α)} (k : String)
    (h : (m.map Prod.fst).Nodup) : ((eraseA m k).map Prod.fst).Nodup :=
  h.sublist (keys_eraseA_sublist m k)

theorem not_mem_keys_eraseA {α : Type} (m : List (String × α)) (k : String) :
    k ∉ (eraseA m k).map Prod.fst := by
  intro hk
  obtain ⟨p, hp, hpk⟩ := List.mem_map.mp hk
  simp only [eraseA, List.mem_filter, decide_eq_true_eq] at hp
  exact hp.2 hpk

theorem keys_insertA_nodup {α : Type} {m : List (String × α)} (k : String) (v : α)
    (h : (m.map Prod.fst).Nodup) : ((insertA m k v).map Prod.fst).Nodup := by
  rw [insertA, List.map_append]
  refine List.Nodup.append (keys_eraseA_nodup k h) (by simp) ?_
  intro a ha hb
  simp only [List.map_cons, List.map_nil, List.mem_singleton] at hb
  exact not_mem_keys_eraseA m k (hb ▸ ha)

theorem eraseA_eq_self_of_not_mem {α : Type} {m : List (String × α)} {k : String}
    (h : k ∉ m.map Prod.fst) : eraseA m k = m := by
  rw [eraseA, List.filter_eq_self]
  intro p hp
  simp only [decide_eq_true_eq]
  intro hpk
  exact h (List.mem_map.mpr ⟨p, hp, hpk⟩)

theorem filterKey_of_lookup_none {α : Type} {m : List (String × α)} {k : String}
    (h : lookupA m k = none) :
    m.filter (fun p => decide (p.1 = k)) = [] := by
  rw [List.filter_eq_nil]
  intro p hp
  simp only [decide_eq_true_eq]
  exact (lookupA_eq_none_iff m k).mp h p hp

theorem filterKey_of_lookup_some {α : Type} {m : List (String × α)} {k : String} {v : α}
    (hnd : (m.map Prod.fst).Nodup) (h : lookupA m k = some v) :
    m.filter (fun p => decide (p.1 = k)) = [(k, v)] := by
  induction m with
  | nil => simp [lookupA] at h
  | cons p rest ih =>
    simp only [List.map_cons, List.nodup_cons] at hnd
    by_cases hp : p.1 = k
    · simp only [lookupA, if_pos hp] at h
      obtain ⟨rfl⟩ := h
      have hrest : rest.filter (fun q => decide (q.1 = k)) = [] := by
        rw [List.filter_eq_nil]
        intro q hq
        simp only [decide_eq_true_eq]
        intro hqk
        exact hnd.1 (List.mem_map.mpr ⟨q, hq, hqk ▸ hp ▸ rfl⟩)
      cases p with
      | mk k1 v1 =>
        simp only at hp
        subst hp
        simp [List.filter, hrest]
    · simp only [lookupA, if_neg hp] at h
      simp [List.filter, hp, ih hnd.2 h]

/-! ### `flush_pending` facts -/

theorem flush_pending_open (s : ActiveSession) (u : String) :
    (flush_pending s u).open_segments = s.open_segments := by
  rw [flush_pending]
  cases lookupA s.pending_cooldown u <;> rfl

theorem flush_pending_labels (s : ActiveSession) (u : String) :
    (flush_pending s u).user_labels = s.user_labels := by
  rw [flush_pending]
  cases lookupA s.pending_cooldown u <;> rfl

theorem flush_pending_buffer (s : ActiveSession) (u : String) :
    (flush_pending s u).segment_merge_buffer_ms = s.segment_merge_buffer_ms := by
  rw [flush_pending]
  cases lookupA s.pending_cooldown u <;> rfl

theorem foldl_flush_open (l : List String) (s : ActiveSession) :
    (l.foldl flush_pending s).open_segments = s.open_segments := by
  induction l generalizing s with
  | nil => rfl
  | cons a l ih => rw [List.foldl_cons, ih, flush_pending_open]

theorem foldl_flush_labels (l : List String) (s : ActiveSession) :
    (l.foldl flush_pending s).user_labels = s.user_labels := by
  induction l generalizing s with
  | nil => rfl
  | cons a l ih => rw [List.foldl_cons, ih, flush_pending_labels]

theorem foldl_flush_buffer (l : List String) (s : ActiveSession) :
    (l.foldl flush_pending s).segment_merge_buffer_ms = s.segment_merge_buffer_ms := by
  induction l generalizing s with
  | nil => rfl
  | cons a l ih => rw [List.foldl_cons, ih, flush_pending_buffer]

theorem flush_pending_pending_of_ne (s : ActiveSession) (u v : String) (h : v ≠ u) :
    lookupA (flush_pending s u).pending_cooldown v = lookupA s.pending_cooldown v := by
  rw [flush_pending]
  cases lookupA s.pending_cooldown u with
  | none => rfl
  | some p => exact lookupA_eraseA_ne _ _ _ h

theorem foldl_flush_pending_of_not_mem (l : List String) (s : ActiveSession)
    (v : String) (h : v ∉ l) :
    lookupA (l.foldl flush_pending s).pending_cooldown v =
      lookupA s.pending_cooldown v := by
  induction l generalizing s with
  | nil => rfl
  | cons a l ih =>
    rw [List.foldl_cons, ih _ (fun hc => h (List.mem_cons_of_mem _ hc)),
      flush_pending_pending_of_ne]
    exact fun hc => h (hc ▸ List.mem_cons_self a l)

/-- The segment `flush_pending` emits for a pending map entry. -/
theorem foldl_flush_all_aux (pc : List (String × PendingSegment)) :
    ∀ s : ActiveSession, s.pending_cooldown = pc → (pc.map Prod.fst).Nodup →
    (pc.map Prod.fst).foldl flush_pending s =
      { s with
        pending_cooldown := []
        segments := s.segments ++ pc.map
          (fun p => ⟨p.2.start_ms, p.2.stop_ms, p.2.user_id,
            lookupA s.user_labels p.1⟩) } := by
  induction pc with
  | nil =>
    intro s hpc _
    simp only [List.map_nil, List.foldl_nil, List.append_nil]
    rw [← hpc]
  | cons q rest ih =>
    intro s hpc hnd
    simp only [List.map_cons, List.nodup_cons] at hnd
    have hlook : lookupA s.pending_cooldown q.1 = some q.2 := by
      rw [hpc]
      simp [lookupA]
    have herase : eraseA s.pending_cooldown q.1 = rest := by
      rw [hpc]
      have h1 : eraseA (q :: rest) q.1 = eraseA rest q.1 := by
        simp [eraseA, List.filter_cons]
      rw [h1, eraseA_eq_self_of_not_mem hnd.1]
    have hflush : flush_pending s q.1 =
        { s with
          pending_cooldown := rest
          segments := s.segments ++
            [⟨q.2.start_ms, q.2.stop_ms, q.2.user_id, lookupA s.user_labels q.1⟩] } := by
      rw [flush_pending, hlook, herase]
    rw [List.map_cons, List.foldl_cons, hflush,
      ih _ rfl hnd.2]
    simp [List.append_assoc]

/-- Flushing all pending keys in map order empties the cooldown map and
appends the corresponding finalized segments in map order. -/
theorem foldl_flush_all (s : ActiveSession)
    (hnd : (s.pending_cooldown.map Prod.fst).Nodup) :
    (s.pending_cooldown.map Prod.fst).foldl flush_pending s =
      { s with
        pending_cooldown := []
        segments := s.segments ++ s.pending_cooldown.map
          (fun p => ⟨p.2.start_ms, p.2.stop_ms, p.2.user_id,
            lookupA s.user_labels p.1⟩) } :=
  foldl_flush_all_aux s.pending_cooldown s rfl hnd

/-! ### Segment-filter and chain lemmas -/

theorem segsOf_append (u : String) (l1 l2 : List SessionSegment) :
    segsOf u (l1 ++ l2) = segsOf u l1 ++ segsOf u l2 := by
  simp [segsOf, List.filter_append]

theorem mem_segsOf {u : String} {g : SessionSegment} {l : List SessionSegment} :
    g ∈ segsOf u l ↔ g ∈ l ∧ g.user_id = u := by
  simp [segsOf, List.mem_filter]

theorem segsOf_singleton_of_eq {u : String} {g : SessionSegment}
    (h : g.user_id = u) : segsOf u [g] = [g] := by
  simp [segsOf, List.filter, h]

theorem segsOf_singleton_of_ne {u : String} {g : SessionSegment}
    (h : ¬ g.user_id = u) : segsOf u [g] = [] := by
  simp [segsOf, List.filter, h]

theorem mem_of_mem_getLastQ {α : Type} {l : List α} {x : α}
    (h : x ∈ l.getLast?) : x ∈ l := by
  obtain ⟨hne, rfl⟩ := List.mem_getLast?_eq_getLast h
  exact List.getLast_mem hne

theorem chain'_to_pairwise : ∀ l : List SessionSegment,
    (∀ g ∈ l, g.start_ms ≤ g.end_ms) → l.Chain' SegBefore →
    l.Pairwise SegBefore := by
  intro l
  induction l with
  | nil => intro _ _; exact List.Pairwise.nil
  | cons a l ih =>
    intro hle hch
    rw [List.chain'_cons'] at hch
    have hp : l.Pairwise SegBefore :=
      ih (fun g hg => hle g (List.mem_cons_of_mem _ hg)) hch.2
    refine List.Pairwise.cons ?_ hp
    intro b hb
    cases l with
    | nil => simp at hb
    | cons hd t =>
      have hah : SegBefore a hd := hch.1 hd rfl
      rcases List.mem_cons.mp hb with rfl | hb'
      · exact hah
      · have hhd : SegBefore hd b := List.rel_of_pairwise_cons hp hb'
        have hdle : hd.start_ms ≤ hd.end_ms :=
          hle hd (List.mem_cons_of_mem _ (List.mem_cons_self _ _))
        exact le_trans hah (le_trans hdle hhd)

theorem mem_of_mem_eraseA {α : Type} {m : List (String × α)} {k : String}
    {p : String × α} (h : p ∈ eraseA m k) : p ∈ m :=
  (List.mem_filter.mp h).1

theorem ne_of_mem_eraseA {α : Type} {m : List (String × α)} {k : String}
    {p : String × α} (h : p ∈ eraseA m k) : p.1 ≠ k := by
  have h2 := (List.mem_filter.mp h).2
  simpa using h2

/-! ### Invariant preservation -/

theorem Inv.mono {s : ActiveSession} {c c' : Nat} (h : Inv s c) (hc : c ≤ c') :
    Inv s c' where
  seg_le := h.seg_le
  seg_clock := fun g hg => le_trans (h.seg_clock g hg) hc
  open_clock := fun p hp => le_trans (h.open_clock p hp) hc
  pend_le := h.pend_le
  pend_clock := fun p hp => le_trans (h.pend_clock p hp) hc
  pend_key := h.pend_key
  open_nd := h.open_nd
  pend_nd := h.pend_nd
  excl := h.excl
  chain := h.chain
  open_after := h.open_after
  pend_after := h.pend_after

theorem Inv.append_segment {s : ActiveSession} {c : Nat} (h : Inv s c)
    (g : SessionSegment) (hle : g.start_ms ≤ g.end_ms) (hclock : g.end_ms ≤ c)
    (hafter : ∀ g' ∈ segsOf g.user_id s.segments, g'.end_ms ≤ g.start_ms)
    (hopen : ∀ p ∈ s.open_segments, p.1 = g.user_id → g.end_ms ≤ p.2)
    (hpend : ∀ p ∈ s.pending_cooldown, p.1 = g.user_id → g.end_ms ≤ p.2.start_ms) :
    Inv { s with segments := s.segments ++ [g] } c where
  seg_le := by
    intro g' hg'
    rcases List.mem_append.mp hg' with hg' | hg'
    · exact h.seg_le g' hg'
    · obtain rfl := List.mem_singleton.mp hg'
      exact hle
  seg_clock := by
    intro g' hg'
    rcases List.mem_append.mp hg' with hg' | hg'
    · exact h.seg_clock g' hg'
    · obtain rfl := List.mem_singleton.mp hg'
      exact hclock
  open_clock := h.open_clock
  pend_le := h.pend_le
  pend_clock := h.pend_clock
  pend_key := h.pend_key
  open_nd := h.open_nd
  pend_nd := h.pend_nd
  excl := h.excl
  chain := by
    intro u
    show (segsOf u (s.segments ++ [g])).Chain' SegBefore
    rw [segsOf_append]
    by_cases hu : g.user_id = u
    · subst hu
      rw [segsOf_singleton_of_eq rfl, List.chain'_append]
      refine ⟨h.chain _, List.chain'_singleton g, ?_⟩
      intro x hx y hy
      simp only [List.head?] at hy
      obtain rfl := (Option.mem_some_iff.mp hy).symm
      exact hafter x (mem_of_mem_getLastQ hx)
    · rw [segsOf_singleton_of_ne hu, List.append_nil]
      exact h.chain u
  open_after := by
    intro p hp g' hg'
    have hg2 : g' ∈ segsOf p.1 (s.segments ++ [g]) := hg'
    rw [segsOf_append] at hg2
    rcases List.mem_append.mp hg2 with hg3 | hg3
    · exact h.open_after p hp g' hg3
    · by_cases hu : g.user_id = p.1
      · rw [segsOf_singleton_of_eq hu] at hg3
        obtain rfl := List.mem_singleton.mp hg3
        exact hopen p hp hu.symm
      · rw [segsOf_singleton_of_ne hu] at hg3
        simp at hg3
  pend_after := by
    intro p hp g' hg'
    have hg2 : g' ∈ segsOf p.1 (s.segments ++ [g]) := hg'
    rw [segsOf_append] at hg2
    rcases List.mem_append.mp hg2 with hg3 | hg3
    · exact h.pend_after p hp g' hg3
    · by_cases hu : g.user_id = p.1
      · rw [segsOf_singleton_of_eq hu] at hg3
        obtain rfl := List.mem_singleton.mp hg3
        exact hpend p hp hu.symm
      · rw [segsOf_singleton_of_ne hu] at hg3
        simp at hg3

theorem Inv.erase_pending {s : ActiveSession} {c : Nat} (h : Inv s c) (u : String) :
    Inv { s with pending_cooldown := eraseA s.pending_cooldown u } c where
  seg_le := h.seg_le
  seg_clock := h.seg_clock
  open_clock := h.open_clock
  pend_le := fun p hp => h.pend_le p (mem_of_mem_eraseA hp)
  pend_clock := fun p hp => h.pend_clock p (mem_of_mem_eraseA hp)
  pend_key := fun p hp => h.pend_key p (mem_of_mem_eraseA hp)
  open_nd := h.open_nd
  pend_nd := keys_eraseA_nodup u h.pend_nd
  excl := by
    intro v hv1 hv2
    by_cases hvu : v = u
    · rw [hvu, lookupA_eraseA_self] at hv2
      simp at hv2
    · rw [lookupA_eraseA_ne _ _ _ hvu] at hv2
      exact h.excl v hv1 hv2
  chain := h.chain
  open_after := h.open_after
  pend_after := fun p hp => h.pend_after p (mem_of_mem_eraseA hp)

theorem Inv.erase_open {s : ActiveSession} {c : Nat} (h : Inv s c) (u : String) :
    Inv { s with open_segments := eraseA s.open_segments u } c where
  seg_le := h.seg_le
  seg_clock := h.seg_clock
  open_clock := fun p hp => h.open_clock p (mem_of_mem_eraseA hp)
  pend_le := h.pend_le
  pend_clock := h.pend_clock
  pend_key := h.pend_key
  open_nd := keys_eraseA_nodup u h.open_nd
  pend_nd := h.pend_nd
  excl := by
    intro v hv1 hv2
    by_cases hvu : v = u
    · rw [hvu, lookupA_eraseA_self] at hv1
      simp at hv1
    · rw [lookupA_eraseA_ne _ _ _ hvu] at hv1
      exact h.excl v hv1 hv2
  chain := h.chain
  open_after := fun p hp => h.open_after p (mem_of_mem_eraseA hp)
  pend_after := h.pend_after

theorem Inv.insert_open {s : ActiveSession} {c : Nat} (h : Inv s c) (u : String)
    (st : Nat) (hst : st ≤ c) (hpend : lookupA s.pending_cooldown u = none)
    (hafter : ∀ g ∈ segsOf u s.segments, g.end_ms ≤ st) :
    Inv { s with open_segments := insertA s.open_segments u st } c where
  seg_le := h.seg_le
  seg_clock := h.seg_clock
  open_clock := by
    intro p hp
    rw [show ({ s with open_segments := insertA s.open_segments u st } :
        ActiveSession).open_segments = eraseA s.open_segments u ++ [(u, st)] from rfl] at hp
    rcases List.mem_append.mp hp with hp | hp
    · exact h.open_clock p (mem_of_mem_eraseA hp)
    · obtain rfl := List.mem_singleton.mp hp
      exact hst
  pend_le := h.pend_le
  pend_clock := h.pend_clock
  pend_key := h.pend_key
  open_nd := keys_insertA_nodup u st h.open_nd
  pend_nd := h.pend_nd
  excl := by
    intro v hv1 hv2
    by_cases hvu : v = u
    · subst hvu
      rw [hpend] at hv2
      simp at hv2
    · rw [show ({ s with open_segments := insertA s.open_segments u st } :
          ActiveSession).open_segments = insertA s.open_segments u st from rfl,
        lookupA_insertA_ne _ _ _ _ hvu] at hv1
      exact h.excl v hv1 hv2
  chain := h.chain
  open_after := by
    intro p hp g hg
    rw [show ({ s with open_segments := insertA s.open_segments u st } :
        ActiveSession).open_segments = eraseA s.open_segments u ++ [(u, st)] from rfl] at hp
    rcases List.mem_append.mp hp with hp | hp
    · exact h.open_after p (mem_of_mem_eraseA hp) g hg
    · obtain rfl := List.mem_singleton.mp hp
      exact hafter g hg
  pend_after := h.pend_after

theorem Inv.insert_pending {s : ActiveSession} {c : Nat} (h : Inv s c) (u : String)
    (q : PendingSegment) (hq1 : q.start_ms ≤ q.stop_ms) (hq2 : q.stop_ms ≤ c)
    (hqu : q.user_id = u) (hopen : lookupA s.open_segments u = none)
    (hafter : ∀ g ∈ segsOf u s.segments, g.end_ms ≤ q.start_ms) :
    Inv { s with pending_cooldown := insertA s.pending_cooldown u q } c where
  seg_le := h.seg_le
  seg_clock := h.seg_clock
  open_clock := h.open_clock
  pend_le := by
    intro p hp
    rw [show ({ s with pending_cooldown := insertA s.pending_cooldown u q } :
        ActiveSession).pending_cooldown = eraseA s.pending_cooldown u ++ [(u, q)]
        from rfl] at hp
    rcases List.mem_append.mp hp with hp | hp
    · exact h.pend_le p (mem_of_mem_eraseA hp)
    · obtain rfl := List.mem_singleton.mp hp
      exact hq1
  pend_clock := by
    intro p hp
    rw [show ({ s with pending_cooldown := insertA s.pending_cooldown u q } :
        ActiveSession).pending_cooldown = eraseA s.pending_cooldown u ++ [(u, q)]
        from rfl] at hp
    rcases List.mem_append.mp hp with hp | hp
    · exact h.pend_clock p (mem_of_mem_eraseA hp)
    · obtain rfl := List.mem_singleton.mp hp
      exact hq2
  pend_key := by
    intro p hp
    rw [show ({ s with pending_cooldown := insertA s.pending_cooldown u q } :
        ActiveSession).pending_cooldown = eraseA s.pending_cooldown u ++ [(u, q)]
        from rfl] at hp
    rcases List.mem_append.mp hp with hp | hp
    · exact h.pend_key p (mem_of_mem_eraseA hp)
    · obtain rfl := List.mem_singleton.mp hp
      exact hqu
  open_nd := h.open_nd
  pend_nd := keys_insertA_nodup u q h.pend_nd
  excl := by
    intro v hv1 hv2
    by_cases hvu : v = u
    · subst hvu
      rw [hopen] at hv1
      simp at hv1
    · rw [show ({ s with pending_cooldown := insertA s.pending_cooldown u q } :
          ActiveSession).pending_cooldown = insertA s.pending_cooldown u q from rfl,
        lookupA_insertA_ne _ _ _ _ hvu] at hv2
      exact h.excl v hv1 hv2
  chain := h.chain
  open_after := h.open_after
  pend_after := by
    intro p hp g hg
    rw [show ({ s with pending_cooldown := insertA s.pending_cooldown u q } :
        ActiveSession).pending_cooldown = eraseA s.pending_cooldown u ++ [(u, q)]
        from rfl] at hp
    rcases List.mem_append.mp hp with hp | hp
    · exact h.pend_after p (mem_of_mem_eraseA hp) g hg
    · obtain rfl := List.mem_singleton.mp hp
      exact hafter g hg

theorem Inv.flush {s : ActiveSession} {c : Nat} (h : Inv s c) (u : String) :
    Inv (flush_pending s u) c := by
  rw [flush_pending]
  cases hl : lookupA s.pending_cooldown u with
  | none => exact h
  | some p =>
    have hmem := lookupA_mem hl
    have hkey : p.user_id = u := h.pend_key (u, p) hmem
    have h1 := h.erase_pending u
    refine h1.append_segment
      ⟨p.start_ms, p.stop_ms, p.user_id, lookupA s.user_labels u⟩
      (h.pend_le (u, p) hmem) (h.pend_clock (u, p) hmem) ?_ ?_ ?_
    · intro g' hg'
      rw [show (SessionSegment.mk p.start_ms p.stop_ms p.user_id
          (lookupA s.user_labels u)).user_id = p.user_id from rfl, hkey] at hg'
      exact h.pend_after (u, p) hmem g' hg'
    · intro p' hp' hp1'
      exfalso
      have hpu : p'.1 = u := by rw [hp1']; exact hkey
      have ho := lookupA_isSome_of_mem hp'
      rw [hpu] at ho
      refine h.excl u ho ?_
      rw [hl]
      rfl
    · intro p' hp' hp1'
      exfalso
      exact ne_of_mem_eraseA hp' (by rw [hp1']; exact hkey)

theorem Inv.foldl_flush {s : ActiveSession} {c : Nat} (h : Inv s c)
    (keys : List String) : Inv (keys.foldl flush_pending s) c := by
  induction keys generalizing s with
  | nil => exact h
  | cons a l ih => exact ih (h.flush a)

theorem inv_start (labels : List (String × String)) (m : Nat) :
    Inv (start_session labels m) 0 where
  seg_le := by intro g hg; simp [start_session] at hg
  seg_clock := by intro g hg; simp [start_session] at hg
  open_clock := by intro p hp; simp [start_session] at hp
  pend_le := by intro p hp; simp [start_session] at hp
  pend_clock := by intro p hp; simp [start_session] at hp
  pend_key := by intro p hp; simp [start_session] at hp
  open_nd := by simp [start_session]
  pend_nd := by simp [start_session]
  excl := by intro u h1 _; simp [start_session, lookupA] at h1
  chain := by intro u; simp [start_session, segsOf]
  open_after := by intro p hp; simp [start_session] at hp
  pend_after := by intro p hp; simp [start_session] at hp

/-- Unfolding `record_speaking_event` on a START event. -/
theorem record_start_def (s : ActiveSession) (u : String) (now : Nat) :
    record_speaking_event s true u now =
      match lookupA (flushOthers s u).pending_cooldown u with
      | some pending =>
        if now - pending.stop_ms ≤ s.segment_merge_buffer_ms then
          { flushOthers s u with
            pending_cooldown := eraseA (flushOthers s u).pending_cooldown u
            open_segments := insertA (flushOthers s u).open_segments u
              pending.start_ms }
        else
          { flushOthers s u with
            pending_cooldown := eraseA (flushOthers s u).pending_cooldown u
            segments := (flushOthers s u).segments ++
              [⟨pending.start_ms, pending.stop_ms, pending.user_id,
                lookupA (flushOthers s u).user_labels u⟩]
            open_segments := insertA (flushOthers s u).open_segments u now }
      | none =>
        if (lookupA (flushOthers s u).open_segments u).isSome then flushOthers s u
        else { flushOthers s u with
          open_segments := insertA (flushOthers s u).open_segments u now } := rfl

/-- Unfolding `record_speaking_event` on a STOP event. -/
theorem record_stop_def (s : ActiveSession) (u : String) (now : Nat) :
    record_speaking_event s false u now =
      match lookupA s.open_segments u with
      | some start_ms =>
        { s with
          open_segments := eraseA s.open_segments u
          pending_cooldown := insertA s.pending_cooldown u ⟨start_ms, now, u⟩ }
      | none =>
        match lookupA s.pending_cooldown u with
        | some pending =>
          { s with pending_cooldown :=
              insertA s.pending_cooldown u { pending with stop_ms := now } }
        | none => s := rfl

theorem Inv.record {s : ActiveSession} {c : Nat} (h : Inv s c) (b : Bool)
    (u : String) (now : Nat) (hc : c ≤ now) :
    Inv (record_speaking_event s b u now) now := by
  have h0 : Inv s now := h.mono hc
  cases b with
  | false =>
    rw [record_stop_def]
    cases ho : lookupA s.open_segments u with
    | some st =>
      dsimp only
      have hmem := lookupA_mem ho
      have h1 := h0.erase_open u
      refine h1.insert_pending u ⟨st, now, u⟩ (h0.open_clock (u, st) hmem) le_rfl rfl
        (lookupA_eraseA_self _ _) ?_
      intro g hg
      exact h0.open_after (u, st) hmem g hg
    | none =>
      dsimp only
      cases hp : lookupA s.pending_cooldown u with
      | some p =>
        dsimp only
        have hmem := lookupA_mem hp
        refine h0.insert_pending u { p with stop_ms := now }
          (le_trans (h0.pend_le (u, p) hmem) (h0.pend_clock (u, p) hmem)) le_rfl
          (h0.pend_key (u, p) hmem) ho ?_
        intro g hg
        exact h0.pend_after (u, p) hmem g hg
      | none => exact h0
  | true =>
    rw [record_start_def]
    have hs' : Inv (flushOthers s u) now := h0.foldl_flush _
    cases hp : lookupA (flushOthers s u).pending_cooldown u with
    | some pending =>
      dsimp only
      have hmem := lookupA_mem hp
      have hkey : pending.user_id = u := hs'.pend_key (u, pending) hmem
      have h1 := hs'.erase_pending u
      by_cases hgap : now - pending.stop_ms ≤ s.segment_merge_buffer_ms
      · rw [if_pos hgap]
        refine h1.insert_open u pending.start_ms
          (le_trans (hs'.pend_le (u, pending) hmem) (hs'.pend_clock (u, pending) hmem))
          (lookupA_eraseA_self _ _) ?_
        intro g hg
        exact hs'.pend_after (u, pending) hmem g hg
      · rw [if_neg hgap]
        have h2 := h1.append_segment
          ⟨pending.start_ms, pending.stop_ms, pending.user_id,
            lookupA (flushOthers s u).user_labels u⟩
          (hs'.pend_le (u, pending) hmem) (hs'.pend_clock (u, pending) hmem)
          ?_ ?_ ?_
        · refine h2.insert_open u now le_rfl (lookupA_eraseA_self _ _) ?_
          intro g hg
          have hg2 : g ∈ segsOf u ((flushOthers s u).segments ++
              [⟨pending.start_ms, pending.stop_ms, pending.user_id,
                lookupA (flushOthers s u).user_labels u⟩]) := hg
          rw [segsOf_append] at hg2
          rcases List.mem_append.mp hg2 with hg | hg
          · have := hs'.pend_after (u, pending) hmem g hg
            have h3 := hs'.pend_clock (u, pending) hmem
            have h4 := hs'.pend_le (u, pending) hmem
            omega
          · by_cases hu : pending.user_id = u
            · rw [segsOf_singleton_of_eq hu] at hg
              obtain rfl := List.mem_singleton.mp hg
              exact hs'.pend_clock (u, pending) hmem
            · exact absurd hkey hu
        · intro g' hg'
          rw [show (SessionSegment.mk pending.start_ms pending.stop_ms pending.user_id
              (lookupA (flushOthers s u).user_labels u)).user_id = pending.user_id
              from rfl, hkey] at hg'
          exact hs'.pend_after (u, pending) hmem g' hg'
        · intro p' hp' hp1'
          exfalso
          have hpu : p'.1 = u := by rw [hp1']; exact hkey
          have hoi := lookupA_isSome_of_mem hp'
          rw [hpu] at hoi
          refine hs'.excl u hoi ?_
          rw [hp]
          rfl
        · intro p' hp' hp1'
          exfalso
          exact ne_of_mem_eraseA hp' (by rw [hp1']; exact hkey)
    | none =>
      dsimp only
      by_cases hoi : (lookupA (flushOthers s u).open_segments u).isSome = true
      · rw [if_pos hoi]
        exact hs'
      · rw [if_neg hoi]
        refine hs'.insert_open u now le_rfl hp ?_
        intro g hg
        exact hs'.seg_clock g (mem_segsOf.mp hg).1

theorem Inv.tick {s : ActiveSession} {c : Nat} (h : Inv s c) (now : Nat)
    (hc : c ≤ now) : Inv (flush_pending_if_elapsed s now) now :=
  (h.mono hc).foldl_flush _

theorem Inv.run {s : ActiveSession} {c : Nat} (h : Inv s c) (tr : List Step)
    (hm : timesMono c tr = true) : Inv (runTrace s tr) (lastTime c tr) := by
  induction tr generalizing s c with
  | nil => exact h
  | cons st rest ih =>
    rw [timesMono, Bool.and_eq_true, decide_eq_true_eq] at hm
    cases st with
    | event b u t => exact ih (h.record b u t hm.1) hm.2
    | tick t => exact ih (h.tick t hm.1) hm.2

/-! ### Trace-unfolding lemmas -/

theorem runTrace_nil (s : ActiveSession) : runTrace s [] = s := rfl

theorem runTrace_cons (s : ActiveSession) (st : Step) (tr : List Step) :
    runTrace s (st :: tr) = runTrace (runStep s st) tr := rfl

theorem runStep_event (s : ActiveSession) (b : Bool) (u : String) (t : Nat) :
    runStep s (Step.event b u t) = record_speaking_event s b u t := rfl

/-! ### `stop_session` lemmas -/

/-- Unfolding `stop_session`. -/
theorem stop_session_def (s : ActiveSession) (now : Nat) :
    stop_session s now =
      { (s.pending_cooldown.map Prod.fst).foldl flush_pending s with
        open_segments := []
        segments := ((s.pending_cooldown.map Prod.fst).foldl flush_pending s).segments ++
          ((s.pending_cooldown.map Prod.fst).foldl flush_pending s).open_segments.map
            (fun p => ⟨p.2, now, p.1,
              lookupA ((s.pending_cooldown.map Prod.fst).foldl flush_pending s).user_labels
                p.1⟩) } := rfl

theorem segsOf_map_close (u : String) (opens : List (String × Nat))
    (lbls : List (String × String)) (now : Nat) :
    segsOf u (opens.map (fun p => ⟨p.2, now, p.1, lookupA lbls p.1⟩)) =
      (opens.filter (fun p => decide (p.1 = u))).map
        (fun p => ⟨p.2, now, p.1, lookupA lbls p.1⟩) := by
  rw [segsOf, List.filter_map]
  rfl

/-- After `stop_session` at a clock value past the invariant's clock: every
finalized segment is well-formed and each user's segments form a
`SegBefore` chain. -/
theorem stop_state_facts (s : ActiveSession) (c now : Nat) (h : Inv s c)
    (hc : c ≤ now) :
    (∀ g ∈ (stop_session s now).segments, g.start_ms ≤ g.end_ms ∧ g.end_ms ≤ now) ∧
    (∀ u, (segsOf u (stop_session s now).segments).Chain' SegBefore) := by
  have h1 : Inv ((s.pending_cooldown.map Prod.fst).foldl flush_pending s) now :=
    (h.mono hc).foldl_flush _
  constructor
  · intro g hg
    have hg2 : g ∈ ((s.pending_cooldown.map Prod.fst).foldl flush_pending s).segments ++
        ((s.pending_cooldown.map Prod.fst).foldl flush_pending s).open_segments.map
          (fun p => ⟨p.2, now, p.1,
            lookupA ((s.pending_cooldown.map Prod.fst).foldl flush_pending s).user_labels
              p.1⟩) := hg
    rcases List.mem_append.mp hg2 with hg3 | hg3
    · exact ⟨h1.seg_le g hg3, h1.seg_clock g hg3⟩
    · obtain ⟨p, hp, rfl⟩ := List.mem_map.mp hg3
      exact ⟨h1.open_clock p hp, le_rfl⟩
  · intro u
    have hseg : (stop_session s now).segments =
        ((s.pending_cooldown.map Prod.fst).foldl flush_pending s).segments ++
        ((s.pending_cooldown.map Prod.fst).foldl flush_pending s).open_segments.map
          (fun p => ⟨p.2, now, p.1,
            lookupA ((s.pending_cooldown.map Prod.fst).foldl flush_pending s).user_labels
              p.1⟩) := rfl
    rw [hseg, segsOf_append, segsOf_map_close]
    cases hlo : lookupA
        ((s.pending_cooldown.map Prod.fst).foldl flush_pending s).open_segments u with
    | none =>
      rw [filterKey_of_lookup_none hlo]
      simp only [List.map_nil, List.append_nil]
      exact h1.chain u
    | some st =>
      rw [filterKey_of_lookup_some h1.open_nd hlo]
      simp only [List.map_cons, List.map_nil]
      rw [List.chain'_append]
      refine ⟨h1.chain u, List.chain'_singleton _, ?_⟩
      intro x hx y hy
      simp only [List.head?] at hy
      obtain rfl := (Option.mem_some_iff.mp hy).symm
      exact h1.open_after (u, st) (lookupA_mem hlo) x (mem_of_mem_getLastQ hx)

/-! ## C3: finalized segments are time-ordered -/

/-- **C3** (amended). For every session started by `start_session`, every
trace of speaking events and periodic flushes with non-decreasing session
clock, and every stop time past the trace: every finalized segment satisfies
`start_ms ≤ end_ms`. (The strict inequality claimed by the spec fails: a
START and STOP in the same millisecond yield `start_ms = end_ms`.) -/
theorem c3_segment_times_ordered (labels : List (String × String)) (m : Nat)
    (tr : List Step) (tstop : Nat) (hm : timesMono 0 tr = true)
    (hstop : lastTime 0 tr ≤ tstop) :
    ∀ g ∈ (stop_session (runTrace (start_session labels m) tr) tstop).segments,
      g.start_ms ≤ g.end_ms := by
  intro g hg
  exact ((stop_state_facts _ _ _ ((inv_start labels m).run tr hm) hstop).1 g hg).1

/-- Witness for C3 at a concrete two-event trace. -/
theorem c3_segment_times_ordered_witness :
    timesMono 0 [Step.event true "A" 0, Step.event false "A" 500] = true ∧
    lastTime 0 [Step.event true "A" 0, Step.event false "A" 500] ≤ 2000 ∧
    ∀ g ∈ (stop_session (runTrace (start_session [] 1000)
        [Step.event true "A" 0, Step.event false "A" 500]) 2000).segments,
      g.start_ms ≤ g.end_ms :=
  ⟨by decide, by decide,
    c3_segment_times_ordered [] 1000 [Step.event true "A" 0, Step.event false "A" 500]
      2000 (by decide) (by decide)⟩

/-- Counterexample to C3 as stated (strict `start_ms < end_ms`): a START and
STOP for the same user in the same session millisecond produce the
zero-length finalized segment `(0, 0, "A")`. -/
theorem c3_counterexample :
    (stop_session (runTrace (start_session [] 1000)
        [Step.event true "A" 0, Step.event false "A" 0]) 0).segments =
      [⟨0, 0, "A", none⟩] ∧ ¬ (0 : Nat) < 0 := by
  decide

/-! ## C4: per-user segments are disjoint and sorted -/

/-- **C4** (confirmed). For every session, every monotone trace and stop
time, and every user `u`: the finalized segments carrying `u` are pairwise
ordered by `start_ms` and have pairwise-disjoint `[start_ms, end_ms)`
ranges, in session-list order. -/
theorem c4_per_user_disjoint_sorted (labels : List (String × String)) (m : Nat)
    (tr : List Step) (tstop : Nat) (u : String) (hm : timesMono 0 tr = true)
    (hstop : lastTime 0 tr ≤ tstop) :
    (segsOf u (stop_session (runTrace (start_session labels m) tr) tstop).segments).Pairwise
      (fun a b => a.start_ms ≤ b.start_ms ∧
        ∀ x : Nat, ¬(a.start_ms ≤ x ∧ x < a.end_ms ∧ b.start_ms ≤ x ∧ x < b.end_ms)) := by
  have hfacts := stop_state_facts _ _ _ ((inv_start labels m).run tr hm) hstop
  have hle : ∀ g ∈ segsOf u (stop_session (runTrace (start_session labels m) tr)
      tstop).segments, g.start_ms ≤ g.end_ms :=
    fun g hg => (hfacts.1 g (mem_segsOf.mp hg).1).1
  have hpw := chain'_to_pairwise _ hle (hfacts.2 u)
  refine hpw.imp_of_mem ?_
  intro a b ha hb hab
  have ha' := hle a ha
  constructor
  · exact le_trans ha' hab
  · intro x hx
    have : a.end_ms ≤ b.start_ms := hab
    omega

/-- Witness for C4 at a concrete overlapping-speakers trace. -/
theorem c4_per_user_disjoint_sorted_witness :
    timesMono 0 [Step.event true "A" 0, Step.event true "B" 200,
      Step.event false "A" 800, Step.event false "B" 1000] = true ∧
    lastTime 0 [Step.event true "A" 0, Step.event true "B" 200,
      Step.event false "A" 800, Step.event false "B" 1000] ≤ 3000 ∧
    (segsOf "A" (stop_session (runTrace (start_session [] 1000)
        [Step.event true "A" 0, Step.event true "B" 200,
          Step.event false "A" 800, Step.event false "B" 1000]) 3000).segments).Pairwise
      (fun a b => a.start_ms ≤ b.start_ms ∧
        ∀ x : Nat, ¬(a.start_ms ≤ x ∧ x < a.end_ms ∧ b.start_ms ≤ x ∧ x < b.end_ms)) :=
  ⟨by decide, by decide,
    c4_per_user_disjoint_sorted [] 1000 [Step.event true "A" 0, Step.event true "B" 200,
      Step.event false "A" 800, Step.event false "B" 1000] 3000 "A"
      (by decide) (by decide)⟩

/-! ## C10: a user is never both open and pending -/

/-- **C10** (confirmed). Along every monotone trace from `start_session`, no
user is simultaneously in the `open` map and in the `pending` map; since
every prefix of a trace is a trace, this holds between any two processed
transitions. -/
theorem c10_open_pending_exclusive (labels : List (String × String)) (m : Nat)
    (tr : List Step) (u : String) (hm : timesMono 0 tr = true) :
    ¬((lookupA (runTrace (start_session labels m) tr).open_segments u).isSome ∧
      (lookupA (runTrace (start_session labels m) tr).pending_cooldown u).isSome) := by
  intro hcontra
  exact ((inv_start labels m).run tr hm).excl u hcontra.1 hcontra.2

/-- Witness for C10 at a concrete trace with an open and a pending user. -/
theorem c10_open_pending_exclusive_witness :
    timesMono 0 [Step.event true "A" 0, Step.event false "A" 10,
      Step.event true "B" 20] = true ∧
    ¬((lookupA (runTrace (start_session [] 1000)
        [Step.event true "A" 0, Step.event false "A" 10,
          Step.event true "B" 20]).open_segments "A").isSome ∧
      (lookupA (runTrace (start_session [] 1000)
        [Step.event true "A" 0, Step.event false "A" 10,
          Step.event true "B" 20]).pending_cooldown "A").isSome) :=
  ⟨by decide,
    c10_open_pending_exclusive [] 1000 [Step.event true "A" 0, Step.event false "A" 10,
      Step.event true "B" 20] "A" (by decide)⟩

/-! ## C6: session stop finalizes everything -/

/-- **C6** (confirmed). For every session state (with well-formed map keys),
`stop_session` appends one finalized segment per pending entry — with its
recorded `start_ms`/`stop_ms` — then one per open entry closed with
`end_ms = now`, in map order; afterwards both maps are empty and the
segment list is exactly this append (not re-sorted). -/
theorem c6_stop_finalizes (s : ActiveSession) (now : Nat)
    (hnd : (s.pending_cooldown.map Prod.fst).Nodup) :
    stop_session s now =
      { s with
        open_segments := []
        pending_cooldown := []
        segments := (s.segments ++ s.pending_cooldown.map
            (fun p => ⟨p.2.start_ms, p.2.stop_ms, p.2.user_id,
              lookupA s.user_labels p.1⟩)) ++
          s.open_segments.map
            (fun p => ⟨p.2, now, p.1, lookupA s.user_labels p.1⟩) } := by
  rw [stop_session_def, foldl_flush_all s hnd]

/-- Witness for C6 at a concrete state with one open and one pending user. -/
theorem c6_stop_finalizes_witness :
    (((ActiveSession.mk [] [] [("A", 5)] [("B", ⟨1, 2, "B"⟩)]
        1000).pending_cooldown.map Prod.fst).Nodup) ∧
    stop_session (ActiveSession.mk [] [] [("A", 5)] [("B", ⟨1, 2, "B"⟩)] 1000) 10 =
      { ActiveSession.mk [] [] [("A", 5)] [("B", ⟨1, 2, "B"⟩)] 1000 with
        open_segments := []
        pending_cooldown := []
        segments := ((ActiveSession.mk [] [] [("A", 5)] [("B", ⟨1, 2, "B"⟩)]
              1000).segments ++
            (ActiveSession.mk [] [] [("A", 5)] [("B", ⟨1, 2, "B"⟩)]
              1000).pending_cooldown.map
              (fun p => ⟨p.2.start_ms, p.2.stop_ms, p.2.user_id,
                lookupA (ActiveSession.mk [] [] [("A", 5)] [("B", ⟨1, 2, "B"⟩)]
                  1000).user_labels p.1⟩)) ++
          (ActiveSession.mk [] [] [("A", 5)] [("B", ⟨1, 2, "B"⟩)]
            1000).open_segments.map
            (fun p => ⟨p.2, 10, p.1,
              lookupA (ActiveSession.mk [] [] [("A", 5)] [("B", ⟨1, 2, "B"⟩)]
                1000).user_labels p.1⟩) } :=
  ⟨by decide,
    c6_stop_finalizes (ActiveSession.mk [] [] [("A", 5)] [("B", ⟨1, 2, "B"⟩)] 1000) 10
      (by decide)⟩

/-! ## C5: duplicate START -/

/-- **C5** (amended). A START for a user `u` already in the open map (and
not pending) leaves the open map unchanged and appends no segment for `u`;
however — contrary to the claim as stated — the event still flushes every
*other* user's pending entry to the finalized list (emptying the cooldown
map), because `record_speaking_event` flushes other users' pendings before
the duplicate check. -/
theorem c5_duplicate_start (s : ActiveSession) (u : String) (now : Nat)
    (hopen : (lookupA s.open_segments u).isSome)
    (hpend : lookupA s.pending_cooldown u = none)
    (hnd : (s.pending_cooldown.map Prod.fst).Nodup) :
    (record_speaking_event s true u now).open_segments = s.open_segments ∧
    (record_speaking_event s true u now).pending_cooldown = [] ∧
    (record_speaking_event s true u now).segments = s.segments ++
      s.pending_cooldown.map (fun p => ⟨p.2.start_ms, p.2.stop_ms, p.2.user_id,
        lookupA s.user_labels p.1⟩) := by
  have hkeys : (s.pending_cooldown.map Prod.fst).filter (fun id => decide (id ≠ u)) =
      s.pending_cooldown.map Prod.fst := by
    rw [List.filter_eq_self]
    intro a ha
    simp only [decide_eq_true_eq]
    intro hc
    obtain ⟨p, hp, hpa⟩ := List.mem_map.mp ha
    exact (lookupA_eq_none_iff _ _).mp hpend p hp (hpa.trans hc)
  have hfo : flushOthers s u =
      { s with
        pending_cooldown := []
        segments := s.segments ++ s.pending_cooldown.map
          (fun p => ⟨p.2.start_ms, p.2.stop_ms, p.2.user_id,
            lookupA s.user_labels p.1⟩) } := by
    rw [flushOthers, hkeys, foldl_flush_all s hnd]
  rw [record_start_def, hfo]
  dsimp only [lookupA]
  rw [if_pos hopen]
  exact ⟨rfl, rfl, rfl⟩

/-- Witness for C5 at a concrete state: `A` open, `B` pending. -/
theorem c5_duplicate_start_witness :
    (lookupA (ActiveSession.mk [] [] [("A", 0)] [("B", ⟨10, 20, "B"⟩)]
        1000).open_segments "A").isSome ∧
    lookupA (ActiveSession.mk [] [] [("A", 0)] [("B", ⟨10, 20, "B"⟩)]
        1000).pending_cooldown "A" = none ∧
    (((ActiveSession.mk [] [] [("A", 0)] [("B", ⟨10, 20, "B"⟩)]
        1000).pending_cooldown.map Prod.fst).Nodup) ∧
    ((record_speaking_event (ActiveSession.mk [] [] [("A", 0)]
        [("B", ⟨10, 20, "B"⟩)] 1000) true "A" 30).open_segments =
      (ActiveSession.mk [] [] [("A", 0)] [("B", ⟨10, 20, "B"⟩)]
        1000).open_segments ∧
    (record_speaking_event (ActiveSession.mk [] [] [("A", 0)]
        [("B", ⟨10, 20, "B"⟩)] 1000) true "A" 30).pending_cooldown = [] ∧
    (record_speaking_event (ActiveSession.mk [] [] [("A", 0)]
        [("B", ⟨10, 20, "B"⟩)] 1000) true "A" 30).segments =
      (ActiveSession.mk [] [] [("A", 0)] [("B", ⟨10, 20, "B"⟩)] 1000).segments ++
        (ActiveSession.mk [] [] [("A", 0)] [("B", ⟨10, 20, "B"⟩)]
          1000).pending_cooldown.map
          (fun p => ⟨p.2.start_ms, p.2.stop_ms, p.2.user_id,
            lookupA (ActiveSession.mk [] [] [("A", 0)] [("B", ⟨10, 20, "B"⟩)]
              1000).user_labels p.1⟩)) :=
  ⟨by decide, by decide, by decide,
    c5_duplicate_start (ActiveSession.mk [] [] [("A", 0)] [("B", ⟨10, 20, "B"⟩)] 1000)
      "A" 30 (by decide) (by decide) (by decide)⟩

/-- Counterexample to C5 as stated: a duplicate START for `A` (reached via a
real trace) does *not* leave the state unchanged — `B`'s pending entry is
flushed to the finalized list. -/
theorem c5_counterexample :
    (lookupA (runTrace (start_session [] 1000)
        [Step.event true "A" 0, Step.event true "B" 10,
          Step.event false "B" 20]).open_segments "A").isSome ∧
    (record_speaking_event (runTrace (start_session [] 1000)
        [Step.event true "A" 0, Step.event true "B" 10,
          Step.event false "B" 20]) true "A" 30).pending_cooldown ≠
      (runTrace (start_session [] 1000)
        [Step.event true "A" 0, Step.event true "B" 10,
          Step.event false "B" 20]).pending_cooldown ∧
    (record_speaking_event (runTrace (start_session [] 1000)
        [Step.event true "A" 0, Step.event true "B" 10,
          Step.event false "B" 20]) true "A" 30).segments =
      [⟨10, 20, "B", none⟩] := by
  decide

/-! ## C2: the merge-buffer law -/

/-- **C2** (amended). For every user, every configured
`merge_buffer_ms ≥ 1` (values below 1 are clamped to 1 by `start_session`),
and every event sequence START@t0, STOP@t1, START@t2, STOP@t3 for that user
with t0 < t1 < t2 < t3 and no other intervening activity: session stop
yields exactly one finalized segment `(t0, t3, u)` when
`t2 − t1 ≤ merge_buffer_ms`, and exactly the two segments `(t0, t1, u)`,
`(t2, t3, u)` otherwise. -/
theorem c2_merge_buffer_law (u : String) (labels : List (String × String))
    (m t0 t1 t2 t3 t4 : Nat) (hm : 1 ≤ m) (h01 : t0 < t1) (h12 : t1 < t2)
    (h23 : t2 < t3) (h34 : t3 ≤ t4) :
    ((stop_session (runTrace (start_session labels m)
        [Step.event true u t0, Step.event false u t1,
          Step.event true u t2, Step.event false u t3]) t4).segments.map
      (fun g => (g.start_ms, g.end_ms, g.user_id))) =
      if t2 - t1 ≤ m then [(t0, t3, u)]
      else [(t0, t1, u), (t2, t3, u)] := by
  have hS : start_session labels m = ActiveSession.mk [] labels [] [] m := by
    rw [show start_session labels m = ActiveSession.mk [] labels [] [] (max m 1)
      from rfl, Nat.max_eq_left hm]
  have step1 : record_speaking_event (ActiveSession.mk [] labels [] [] m) true u t0 =
      ActiveSession.mk [] labels [(u, t0)] [] m := rfl
  have stopStep : ∀ (segs : List SessionSegment) (st nw : Nat),
      record_speaking_event (ActiveSession.mk segs labels [(u, st)] [] m) false u nw =
        ActiveSession.mk segs labels [] [(u, ⟨st, nw, u⟩)] m := by
    intro segs st nw
    rw [record_stop_def]
    have h1 : lookupA [(u, st)] u = some st := by simp [lookupA]
    rw [h1]
    dsimp only
    have h2 : eraseA [(u, st)] u = ([] : List (String × Nat)) := by
      simp [eraseA, List.filter_cons]
    rw [h2]
    rfl
  have hfo : ∀ (segs : List SessionSegment) (p : PendingSegment),
      flushOthers (ActiveSession.mk segs labels [] [(u, p)] m) u =
        ActiveSession.mk segs labels [] [(u, p)] m := by
    intro segs p
    rw [flushOthers]
    have h1 : (((ActiveSession.mk segs labels [] [(u, p)] m).pending_cooldown.map
        Prod.fst).filter (fun id => decide (id ≠ u))) = [] := by
      simp
    rw [h1]
    rfl
  have hstop : ∀ (segs : List SessionSegment) (p : PendingSegment),
      (stop_session (ActiveSession.mk segs labels [] [(u, p)] m) t4).segments =
        segs ++ [⟨p.start_ms, p.stop_ms, p.user_id, lookupA labels u⟩] := by
    intro segs p
    rw [stop_session_def, foldl_flush_all _ (by simp)]
    simp [lookupA]
  by_cases hgap : t2 - t1 ≤ m
  · have step3 : record_speaking_event
        (ActiveSession.mk [] labels [] [(u, ⟨t0, t1, u⟩)] m) true u t2 =
        ActiveSession.mk [] labels [(u, t0)] [] m := by
      rw [record_start_def, hfo]
      have h1 : lookupA [(u, PendingSegment.mk t0 t1 u)] u = some ⟨t0, t1, u⟩ := by
        simp [lookupA]
      rw [h1]
      dsimp only
      rw [if_pos hgap]
      have h2 : eraseA [(u, PendingSegment.mk t0 t1 u)] u =
          ([] : List (String × PendingSegment)) := by
        simp [eraseA, List.filter_cons]
      rw [h2]
      rfl
    rw [if_pos hgap, hS, runTrace_cons, runStep_event, step1, runTrace_cons,
      runStep_event, stopStep, runTrace_cons, runStep_event, step3, runTrace_cons,
      runStep_event, stopStep, runTrace_nil, hstop]
    rfl
  · have step3 : record_speaking_event
        (ActiveSession.mk [] labels [] [(u, ⟨t0, t1, u⟩)] m) true u t2 =
        ActiveSession.mk [⟨t0, t1, u, lookupA labels u⟩] labels [(u, t2)] [] m := by
      rw [record_start_def, hfo]
      have h1 : lookupA [(u, PendingSegment.mk t0 t1 u)] u = some ⟨t0, t1, u⟩ := by
        simp [lookupA]
      rw [h1]
      dsimp only
      rw [if_neg hgap]
      have h2 : eraseA [(u, PendingSegment.mk t0 t1 u)] u =
          ([] : List (String × PendingSegment)) := by
        simp [eraseA, List.filter_cons]
      rw [h2]
      rfl
    rw [if_neg hgap, hS, runTrace_cons, runStep_event, step1, runTrace_cons,
      runStep_event, stopStep, runTrace_cons, runStep_event, step3, runTrace_cons,
      runStep_event, stopStep, runTrace_nil, hstop]
    rfl

/-- Witness for C2: the spec's scenario S1 (merge) instantiated. -/
theorem c2_merge_buffer_law_witness :
    (1 : Nat) ≤ 1000 ∧ (0 : Nat) < 500 ∧ (500 : Nat) < 1200 ∧
    (1200 : Nat) < 2000 ∧ (2000 : Nat) ≤ 2000 ∧
    ((stop_session (runTrace (start_session [] 1000)
        [Step.event true "A" 0, Step.event false "A" 500,
          Step.event true "A" 1200, Step.event false "A" 2000]) 2000).segments.map
      (fun g => (g.start_ms, g.end_ms, g.user_id))) =
      (if (1200 - 500 : Nat) ≤ 1000 then [(0, 2000, "A")]
       else [(0, 500, "A"), (1200, 2000, "A")]) :=
  ⟨by decide, by decide, by decide, by decide, by decide,
    c2_merge_buffer_law "A" [] 1000 0 500 1200 2000 2000 (by decide) (by decide)
      (by decide) (by decide) (by decide)⟩

/-- Counterexample to C2 as stated (universally quantified over
`merge_buffer_ms`): with configured `merge_buffer_ms = 0` the gap
`t2 − t1 = 1` exceeds it, so the claim demands two segments, but the code
clamps the buffer to 1 ms and merges into the single segment
`(0, 20, "A")`. -/
theorem c2_counterexample :
    (0 : Nat) < 11 - 10 ∧
    ((stop_session (runTrace (start_session [] 0)
        [Step.event true "A" 0, Step.event false "A" 10,
          Step.event true "A" 11, Step.event false "A" 20]) 20).segments.map
      (fun g => (g.start_ms, g.end_ms, g.user_id))) = [(0, 20, "A")] := by
  decide

/-! ### Transcription-loop lemmas -/

/-- Full specification of the batch per-segment loop when no abort occurs
(`extract_segment` succeeds everywhere and the backend never fails to
spawn): it returns `ok`, keeps the `texts` length, leaves indices below `i`
untouched, records `""` at empty segments and the sentinel at failed
non-empty segments, invokes the backend exactly on the non-empty segments,
and retains prior call-log entries. -/
theorem transcribeGo_ok (mode : BackendMode) (ext : Nat → Except String Unit)
    (hext : ∀ i, ext i = Except.ok ())
    (hns : ∀ i e, runBackend mode i ≠ Except.error e) :
    ∀ (segs : List SessionSegment) (i : Nat) (texts : List String)
      (calls : List Nat), i + segs.length ≤ texts.length →
      ∃ t c, transcribeGo mode ext segs i texts calls = Except.ok (t, c) ∧
        t.length = texts.length ∧
        (∀ j, j < i → t.get? j = texts.get? j) ∧
        (∀ k, (hk : k < segs.length) →
          ((segs.get ⟨k, hk⟩).end_ms ≤ (segs.get ⟨k, hk⟩).start_ms →
            t.get? (i + k) = some "") ∧
          ((segs.get ⟨k, hk⟩).start_ms < (segs.get ⟨k, hk⟩).end_ms →
            (i + k) ∈ c ∧
            ∀ e, runBackend mode (i + k) = Except.ok (Except.error e) →
              t.get? (i + k) =
                some ("[Transcription error: " ++ sentinelMsg e ++ "]"))) ∧
        (∀ x ∈ calls, x ∈ c) ∧
        (∀ x ∈ c, x ∈ calls ∨ ∃ k s0, segs.get? k = some s0 ∧ x = i + k ∧
          s0.start_ms < s0.end_ms) := by
  intro segs
  induction segs with
  | nil =>
    intro i texts calls _
    exact ⟨texts, calls, rfl, rfl, fun j _ => rfl,
      fun k hk => absurd hk (Nat.not_lt_zero k), fun x hx => hx,
      fun x hx => Or.inl hx⟩
  | cons seg rest ih =>
    intro i texts calls hlen
    simp only [List.length_cons] at hlen
    simp only [transcribeGo]
    by_cases hemp : seg.end_ms ≤ seg.start_ms
    · rw [if_pos hemp]
      obtain ⟨t, c, heq, hlen', hpre, hk, hsub, hcalls⟩ :=
        ih (i + 1) (texts.set i "") calls (by rw [List.length_set]; omega)
      refine ⟨t, c, heq, by rw [hlen', List.length_set], ?_, ?_, hsub, ?_⟩
      · intro j hj
        rw [hpre j (by omega), List.get?_set_ne _ _ (by omega)]
      · intro k hk'
        cases k with
        | zero =>
          refine ⟨fun _ => ?_, fun hlt => ?_⟩
          · have h1 : t.get? (i + 0) = (texts.set i "").get? i := by
              rw [Nat.add_zero]
              exact hpre i (by omega)
            rw [h1, List.get?_set_eq_of_lt _ (by omega)]
          · have hlt' : seg.start_ms < seg.end_ms := hlt
            omega
        | succ k' =>
          have hk2 : k' < rest.length := by
            simp only [List.length_cons] at hk'
            omega
          refine ⟨fun he => ?_, fun hlt => ?_⟩
          · rw [show i + (k' + 1) = (i + 1) + k' from by omega]
            exact (hk k' hk2).1 he
          · rw [show i + (k' + 1) = (i + 1) + k' from by omega]
            exact (hk k' hk2).2 hlt
      · intro x hx
        rcases hcalls x hx with hx' | ⟨k, s0, hget, hxe, hs0⟩
        · exact Or.inl hx'
        · refine Or.inr ⟨k + 1, s0, ?_, by omega, hs0⟩
          simpa using hget
    · rw [if_neg hemp]
      rw [hext i]
      dsimp only
      obtain ⟨result, hrb⟩ : ∃ r, runBackend mode i = Except.ok r := by
        cases hr : runBackend mode i with
        | error e => exact absurd hr (hns i e)
        | ok r => exact ⟨r, rfl⟩
      rw [hrb]
      dsimp only
      · obtain ⟨t, c, heq, hlen', hpre, hk, hsub, hcalls⟩ :=
          ih (i + 1) (texts.set i (resultText result))
            (calls ++ [i]) (by rw [List.length_set]; omega)
        refine ⟨t, c, heq, by rw [hlen', List.length_set], ?_, ?_, ?_, ?_⟩
        · intro j hj
          rw [hpre j (by omega), List.get?_set_ne _ _ (by omega)]
        · intro k hk'
          cases k with
          | zero =>
            refine ⟨fun he => absurd he hemp, fun _ => ?_⟩
            constructor
            · rw [Nat.add_zero]
              exact hsub i (by simp)
            · intro e hre
              rw [Nat.add_zero] at hre ⊢
              rw [hrb] at hre
              obtain rfl : result = Except.error e := by
                injection hre
              have h1 : t.get? i =
                  (texts.set i (resultText (Except.error e))).get? i :=
                hpre i (by omega)
              rw [h1, List.get?_set_eq_of_lt _ (by omega)]
              rfl
          | succ k' =>
            have hk2 : k' < rest.length := by
              simp only [List.length_cons] at hk'
              omega
            refine ⟨fun he => ?_, fun hlt => ?_⟩
            · rw [show i + (k' + 1) = (i + 1) + k' from by omega]
              exact (hk k' hk2).1 he
            · rw [show i + (k' + 1) = (i + 1) + k' from by omega]
              exact (hk k' hk2).2 hlt
        · intro x hx
          exact hsub x (by simp [hx])
        · intro x hx
          rcases hcalls x hx with hx' | ⟨k, s0, hget, hxe, hs0⟩
          · rcases List.mem_append.mp hx' with hx'' | hx''
            · exact Or.inl hx''
            · obtain rfl := List.mem_singleton.mp hx''
              refine Or.inr ⟨0, seg, by simp, by omega, by omega⟩
          · refine Or.inr ⟨k + 1, s0, ?_, by omega, hs0⟩
            simpa using hget

theorem liveStep_empty (exs : SessionSegment → List Int)
    (bk : SessionSegment → String) (wav : SessionSegment → Bool)
    (acc : List String × List SessionSegment) (seg : SessionSegment)
    (hseg : seg.end_ms ≤ seg.start_ms) : liveStep exs bk wav acc seg = acc := by
  rw [liveStep, if_pos hseg]

theorem liveWorker_skip_middle (exs : SessionSegment → List Int)
    (bk : SessionSegment → String) (wav : SessionSegment → Bool)
    (seg : SessionSegment) (hseg : seg.end_ms ≤ seg.start_ms)
    (pre post : List SessionSegment) :
    liveWorker exs bk wav (pre ++ seg :: post) =
      liveWorker exs bk wav (pre ++ post) := by
  rw [liveWorker, liveWorker, List.foldl_append, List.foldl_append,
    List.foldl_cons, liveStep_empty _ _ _ _ _ hseg]

/-! ## C8: per-segment resilience of batch transcription -/

/-- **C8** (amended). When slice extraction succeeds and the backend never
fails to *spawn* (the `?` early-returns are not hit), the batch dispatch
returns `ok`, its `transcript_texts` has length ≥ the number of segments,
every non-empty segment's backend is invoked, and every runtime backend
failure — subprocess non-zero exit or remote non-2xx, i.e.
`runBackend = ok (error e)` — is recorded as the sentinel
`[Transcription error: ...]` at that segment's index while all remaining
segments are still attempted. (A failure to spawn the directly-invoked
subprocess instead aborts the whole command: see the counterexample.) -/
theorem c8_batch_resilience (mode : BackendMode) (ext : Nat → Except String Unit)
    (segs : List SessionSegment) (texts0 : List String)
    (hext : ∀ i, ext i = Except.ok ())
    (hns : ∀ i e, runBackend mode i ≠ Except.error e) :
    ∃ t c, transcribe_session_texts mode ext segs texts0 = Except.ok (t, c) ∧
      segs.length ≤ t.length ∧
      ∀ k, (hk : k < segs.length) →
        (segs.get ⟨k, hk⟩).start_ms < (segs.get ⟨k, hk⟩).end_ms →
        k ∈ c ∧ ∀ e, runBackend mode k = Except.ok (Except.error e) →
          t.get? k = some ("[Transcription error: " ++ sentinelMsg e ++ "]") := by
  obtain ⟨t, c, heq, hlen, _, hk, _, _⟩ :=
    transcribeGo_ok mode ext hext hns segs 0
      (texts0 ++ List.replicate (segs.length - texts0.length) "") []
      (by simp only [List.length_append, List.length_replicate]; omega)
  refine ⟨t, c, heq, ?_, ?_⟩
  · rw [hlen]
    simp only [List.length_append, List.length_replicate]
    omega
  · intro k hkk hne
    have h2 := (hk k hkk).2 hne
    rw [Nat.zero_add] at h2
    exact h2

/-- Witness for C8: a direct-subprocess backend whose only segment exits
non-zero; the sentinel is recorded and the dispatch still returns `ok`. -/
theorem c8_batch_resilience_witness :
    (∀ i, (fun _ : Nat => (Except.ok () : Except String Unit)) i = Except.ok ()) ∧
    (∀ i e, runBackend (BackendMode.direct (fun _ => SubprocOutcome.exitFailure "boom")) i ≠
      Except.error e) ∧
    (∃ t c, transcribe_session_texts
        (BackendMode.direct (fun _ => SubprocOutcome.exitFailure "boom"))
        (fun _ => Except.ok ()) [⟨0, 10, "A", none⟩] [] = Except.ok (t, c) ∧
      ([⟨0, 10, "A", none⟩] : List SessionSegment).length ≤ t.length ∧
      ∀ k, (hk : k < ([⟨0, 10, "A", none⟩] : List SessionSegment).length) →
        (([⟨0, 10, "A", none⟩] : List SessionSegment).get ⟨k, hk⟩).start_ms <
          (([⟨0, 10, "A", none⟩] : List SessionSegment).get ⟨k, hk⟩).end_ms →
        k ∈ c ∧ ∀ e, runBackend (BackendMode.direct
            (fun _ => SubprocOutcome.exitFailure "boom")) k =
            Except.ok (Except.error e) →
          t.get? k = some ("[Transcription error: " ++ sentinelMsg e ++ "]")) :=
  ⟨fun _ => rfl, by intro i e h; simp [runBackend] at h,
    c8_batch_resilience (BackendMode.direct (fun _ => SubprocOutcome.exitFailure "boom"))
      (fun _ => Except.ok ()) [⟨0, 10, "A", none⟩] [] (fun _ => rfl)
      (by intro i e h; simp [runBackend] at h)⟩

/-- Counterexample to C8 as stated: a failure to *spawn* the subprocess at
segment 0 aborts the entire batch command with an error — no sentinel is
recorded and the second segment is never attempted. -/
theorem c8_counterexample :
    transcribe_session_texts
        (BackendMode.direct (fun _ => SubprocOutcome.spawnFailure "program not found"))
        (fun _ => Except.ok ())
        [⟨0, 10, "A", none⟩, ⟨20, 30, "A", none⟩] [] =
      Except.error ("Failed to run whisper: program not found") := by
  rfl

/-! ## C7: empty-segment policy -/

/-- **C7** (amended). Segments with `end_ms ≤ start_ms` never reach a
backend, in either mode; in *batch* mode an empty string is recorded at the
segment's index of `transcript_texts`, but in *live* mode the segment is
skipped entirely — nothing is appended to the live transcript list for it
(deleting it from the stream leaves the live worker's output unchanged),
rather than an empty string being recorded at its index. -/
theorem c7_empty_segment_policy (mode : BackendMode)
    (ext : Nat → Except String Unit) (segs : List SessionSegment)
    (texts0 : List String) (i : Nat) (hext : ∀ j, ext j = Except.ok ())
    (hns : ∀ j e, runBackend mode j ≠ Except.error e) (hi : i < segs.length)
    (hempty : (segs.get ⟨i, hi⟩).end_ms ≤ (segs.get ⟨i, hi⟩).start_ms)
    (exs : SessionSegment → List Int) (bk : SessionSegment → String)
    (wav : SessionSegment → Bool) (pre post : List SessionSegment)
    (seg : SessionSegment) (hseg : seg.end_ms ≤ seg.start_ms) :
    (∃ t c, transcribe_session_texts mode ext segs texts0 = Except.ok (t, c) ∧
      t.get? i = some "" ∧ i ∉ c) ∧
    liveWorker exs bk wav (pre ++ seg :: post) =
      liveWorker exs bk wav (pre ++ post) := by
  constructor
  · obtain ⟨t, c, heq, _, _, hk, _, hcalls⟩ :=
      transcribeGo_ok mode ext hext hns segs 0
        (texts0 ++ List.replicate (segs.length - texts0.length) "") []
        (by simp only [List.length_append, List.length_replicate]; omega)
    refine ⟨t, c, heq, ?_, ?_⟩
    · have h1 := (hk i hi).1 hempty
      rw [Nat.zero_add] at h1
      exact h1
    · intro hic
      rcases hcalls i hic with hx | ⟨k, s0, hget, hxe, hs0⟩
      · simp at hx
      · rw [Nat.zero_add] at hxe
        subst hxe
        rw [List.get?_eq_get hi] at hget
        obtain rfl := Option.some.injEq _ _ ▸ hget
        omega
  · exact liveWorker_skip_middle exs bk wav seg hseg pre post

/-- Witness for C7 at a concrete zero-length segment in both modes. -/
theorem c7_empty_segment_policy_witness :
    (∀ j, (fun _ : Nat => (Except.ok () : Except String Unit)) j = Except.ok ()) ∧
    (∀ j e, runBackend (BackendMode.remote (fun _ => Except.ok "hi")) j ≠
      Except.error e) ∧
    (0 : Nat) < ([⟨5, 5, "A", none⟩] : List SessionSegment).length ∧
    ((∃ t c, transcribe_session_texts (BackendMode.remote (fun _ => Except.ok "hi"))
        (fun _ => Except.ok ()) [⟨5, 5, "A", none⟩] [] = Except.ok (t, c) ∧
      t.get? 0 = some "" ∧ 0 ∉ c) ∧
    liveWorker (fun _ => []) (fun _ => "") (fun _ => true)
        ([] ++ (⟨5, 5, "A", none⟩ : SessionSegment) :: []) =
      liveWorker (fun _ => []) (fun _ => "") (fun _ => true) ([] ++ [])) :=
  ⟨fun _ => rfl, by intro j e h; simp [runBackend] at h, by decide,
    c7_empty_segment_policy (BackendMode.remote (fun _ => Except.ok "hi"))
      (fun _ => Except.ok ()) [⟨5, 5, "A", none⟩] [] 0 (fun _ => rfl)
      (by intro j e h; simp [runBackend] at h) (by decide) (by decide)
      (fun _ => []) (fun _ => "") (fun _ => true) [] [] ⟨5, 5, "A", none⟩
      (by decide)⟩

/-- Counterexample to C7 as stated: in live mode a zero-length segment is
dropped without recording an empty string at its index — the live
transcript list stays empty and no backend block runs. -/
theorem c7_counterexample :
    ((5 : Nat) ≤ 5) ∧
    (liveWorker (fun _ => []) (fun _ => "text") (fun _ => true)
        [⟨5, 5, "A", none⟩]).1.get? 0 ≠ some "" ∧
    (liveWorker (fun _ => []) (fun _ => "text") (fun _ => true)
        [⟨5, 5, "A", none⟩]).2 = [] := by
  refine ⟨by decide, ?_, rfl⟩
  intro h
  simp [liveWorker, liveStep, List.foldl] at h

/-! ## C1: ring-buffer extraction -/

/-- **C1** (amended). For `start_ms ≤ end_ms` (with the `u64` quantities in
range), the length of `extract start_ms end_ms` is: `0` when the start maps
below `base_sample`; `0` when the start maps at or beyond the tail
(`base_sample + len`); and otherwise
`min ((end_ms - start_ms) * 16) (base_sample + len - start_ms * 16)` — in
particular exactly `(end_ms - start_ms) * 16` samples when the sample range
is fully contained in the retained window, the empty sequence when the range
is empty, but a *truncated non-empty* result (not the empty sequence) when
the range starts inside the window and ends beyond the tail. -/
theorem c1_extract_characterization (b : AudioBuffer) (start_ms end_ms : Nat)
    (hse : start_ms ≤ end_ms) (hend : end_ms * SAMPLES_PER_MS < U64)
    (hbase : b.base_sample < U64) :
    (b.extract start_ms end_ms).length =
      if start_ms * SAMPLES_PER_MS < b.base_sample then 0
      else if b.base_sample + b.samples.length ≤ start_ms * SAMPLES_PER_MS then 0
      else
        min ((end_ms - start_ms) * SAMPLES_PER_MS)
          (b.base_sample + b.samples.length - start_ms * SAMPLES_PER_MS) := by
  have hss : start_ms * SAMPLES_PER_MS ≤ end_ms * SAMPLES_PER_MS :=
    Nat.mul_le_mul_right _ hse
  have hslt : start_ms * SAMPLES_PER_MS < U64 := lt_of_le_of_lt hss hend
  unfold AudioBuffer.extract
  rw [Nat.mod_eq_of_lt hslt, Nat.mod_eq_of_lt hend]
  by_cases h1 : start_ms * SAMPLES_PER_MS < b.base_sample
  · simp [h1]
  · have hb : b.base_sample ≤ start_ms * SAMPLES_PER_MS := Nat.le_of_not_lt h1
    have hwrap : wrapSub (end_ms * SAMPLES_PER_MS) b.base_sample =
        end_ms * SAMPLES_PER_MS - b.base_sample := by
      unfold wrapSub U64 at *
      omega
    rw [if_neg h1, hwrap]
    by_cases h2 : b.samples.length ≤ start_ms * SAMPLES_PER_MS - b.base_sample
    · have h2' : b.base_sample + b.samples.length ≤ start_ms * SAMPLES_PER_MS := by omega
      simp [h2, h2']
    · have h2' : ¬ b.base_sample + b.samples.length ≤ start_ms * SAMPLES_PER_MS := by omega
      rw [if_neg h2']
      by_cases h3 : end_ms * SAMPLES_PER_MS - b.base_sample -
          (start_ms * SAMPLES_PER_MS - b.base_sample) = 0
      · have hes : (end_ms - start_ms) * SAMPLES_PER_MS = 0 := by
          rw [Nat.sub_mul]; omega
        simp [h2, h3, hes]
      · rw [if_neg (by push_neg; exact ⟨Nat.lt_of_not_le h2, h3⟩)]
        simp only [List.length_take, List.length_drop, Nat.sub_mul, Nat.min_def]
        split_ifs <;> omega

/-- Witness for C1 at a concrete buffer: 20 retained samples from base 0,
extracting the fully-available first millisecond. -/
theorem c1_extract_characterization_witness :
    (0 : Nat) ≤ 1 ∧ 1 * SAMPLES_PER_MS < U64 ∧
      (AudioBuffer.mk (List.replicate 20 0) 0).base_sample < U64 ∧
      ((AudioBuffer.mk (List.replicate 20 0) 0).extract 0 1).length =
        (if 0 * SAMPLES_PER_MS < (AudioBuffer.mk (List.replicate 20 0) 0).base_sample then 0
         else if (AudioBuffer.mk (List.replicate 20 0) 0).base_sample +
             (AudioBuffer.mk (List.replicate 20 0) 0).samples.length ≤ 0 * SAMPLES_PER_MS then 0
         else
           min ((1 - 0) * SAMPLES_PER_MS)
             ((AudioBuffer.mk (List.replicate 20 0) 0).base_sample +
               (AudioBuffer.mk (List.replicate 20 0) 0).samples.length - 0 * SAMPLES_PER_MS)) :=
  ⟨by decide, by decide, by decide,
    c1_extract_characterization (AudioBuffer.mk (List.replicate 20 0) 0) 0 1
      (by decide) (by decide) (by decide)⟩

/-- Counterexample to C1 as stated: after pushing 16 samples, the request
`extract 0 2` asks for sample range `[0, 32)`, whose end lies beyond the
current tail (`base_sample + len = 16`); the claim demands the empty
sequence, but the code returns the 16-sample truncated slice. -/
theorem c1_counterexample :
    ((List.replicate 16 (1 : Int)).foldl AudioBuffer.push AudioBuffer.new).extract 0 2 ≠ [] ∧
      (((List.replicate 16 (1 : Int)).foldl AudioBuffer.push AudioBuffer.new).extract 0 2).length
        = 16 ∧
      ((List.replicate 16 (1 : Int)).foldl AudioBuffer.push AudioBuffer.new).base_sample +
          ((List.replicate 16 (1 : Int)).foldl AudioBuffer.push AudioBuffer.new).samples.length
        < 2 * SAMPLES_PER_MS := by
  decide

/-! ## C9: named-pipe frame round-trip -/

/-- **C9** (confirmed, at the byte level). For every opcode `< 2^32` and every
payload whose byte length fits in a `u32`, decoding the byte stream produced
by `send_frame` yields exactly the original (opcode, payload) pair and
consumes exactly the frame. -/
theorem c9_frame_roundtrip (opcode : Nat) (payload : List Nat)
    (hop : opcode < 2 ^ 32) (hlen : payload.length < 2 ^ 32) :
    recvFrame (sendFrame opcode payload) = some ((opcode, payload), []) := by
  show recvFrame (toLE4 opcode ++ toLE4 payload.length ++ payload) = _
  simp only [toLE4, List.cons_append, List.nil_append, recvFrame, fromLE4]
  have hop' : opcode % 256 + 256 * (opcode / 256 % 256 + 256 * (opcode / 256 / 256 % 256 +
      256 * (opcode / 256 / 256 / 256 % 256))) = opcode := by omega
  have hlen' : payload.length % 256 + 256 * (payload.length / 256 % 256 +
      256 * (payload.length / 256 / 256 % 256 +
        256 * (payload.length / 256 / 256 / 256 % 256))) = payload.length := by omega
  rw [hop', hlen']
  by_cases h0 : payload.length = 0
  · rw [if_pos h0, List.length_eq_zero.mp h0]
  · rw [if_neg h0, if_neg (by omega), List.take_length, List.drop_length]

/-- Witness for C9: opcode 1 (FRAME) with a 2-byte payload. -/
theorem c9_frame_roundtrip_witness :
    (1 : Nat) < 2 ^ 32 ∧ ([123, 34] : List Nat).length < 2 ^ 32 ∧
      recvFrame (sendFrame 1 [123, 34]) = some ((1, [123, 34]), []) :=
  ⟨by decide, by decide, c9_frame_roundtrip 1 [123, 34] (by decide) (by decide)⟩

end DScribe
